import Mathlib

/-!
# Verification of a streaming moving-average filter

Shallow embedding of `src/moving_average_filter.py` (class `MovingAverageFilter`).
Samples are modelled as exact rationals (`ℚ`), standing for the ideal-real
semantics of the Python floats; the frequency-response query, which involves
transcendental functions, is modelled over `ℝ`/`ℂ`.

Python runtime failures (numpy `ValueError` on a negative array size,
`IndexError` on an out-of-range buffer access, `ZeroDivisionError` on `% 0`
or `/ 0`) are modelled with `Except PyErr`.
-/

namespace MovingAverage

/-- Runtime errors that the Python code can raise on the modelled paths. -/
inductive PyErr where
  | valueError
  | indexError
  | zeroDivisionError
deriving DecidableEq, Repr

/-- The mutable state of a `MovingAverageFilter` object: `window_size`
(`self.window_size`), the ring `buffer` (`self.buffer`), the write `index`
(`self.index`) and the running `sum` (`self.sum`). -/
structure State where
  window_size : Nat
  buffer : List ℚ
  index : Nat
  sum : ℚ
deriving DecidableEq, Repr

/-- `MovingAverageFilter.__init__`: stores `window_size`, allocates
`np.zeros(window_size)` (numpy raises `ValueError` on a negative size, so the
object is never returned then), and sets `index = 0`, `sum = 0.0`.
There is no validation of `window_size` beyond numpy's refusal of a negative
array length: `window_size = 0` succeeds with an empty buffer. -/
def init (window_size : Int) : Except PyErr State :=
  if window_size < 0 then
    .error .valueError
  else
    .ok { window_size := window_size.toNat,
          buffer := List.replicate window_size.toNat 0,
          index := 0,
          sum := 0 }

/-- The state reached by `__init__` on a nonnegative `window_size`. -/
def fresh (n : Nat) : State :=
  { window_size := n, buffer := List.replicate n 0, index := 0, sum := 0 }

/-- The successful body of `filter_sample`: subtract `buffer[index]` from
`sum`, overwrite `buffer[index]` with the input, add the input to `sum`,
advance `index` by one modulo `window_size`, return `sum / window_size`. -/
def sampleStep (s : State) (x : ℚ) : ℚ × State :=
  let oldv := s.buffer.getD s.index 0
  let newSum := s.sum - oldv + x
  (newSum / (s.window_size : ℚ),
   { window_size := s.window_size,
     buffer := s.buffer.set s.index x,
     index := (s.index + 1) % s.window_size,
     sum := newSum })

/-- `MovingAverageFilter.filter_sample`: the statement
`self.sum -= self.buffer[self.index]` first reads `self.buffer[self.index]`,
which raises `IndexError` when the index is out of range (in particular on the
empty buffer of a `window_size = 0` object, before any mutation happens);
`(self.index + 1) % self.window_size` and `self.sum / self.window_size` raise
`ZeroDivisionError` when `window_size = 0`. -/
def filter_sample (s : State) (x : ℚ) : Except PyErr (ℚ × State) :=
  if s.index < s.buffer.length then
    if s.window_size = 0 then .error .zeroDivisionError
    else .ok (sampleStep s x)
  else .error .indexError

/-- Loop body of `MovingAverageFilter.filter_signal`: iterates over the input
collecting `filter_sample` outputs in order into the output array (modelled by
an accumulator); an exception from `filter_sample` propagates out. -/
def filter_signal_loop (s : State) (acc : List ℚ) :
    List ℚ → Except PyErr (List ℚ × State)
  | [] => .ok (acc.reverse, s)
  | x :: rest =>
    match filter_sample s x with
    | .error e => .error e
    | .ok (y, s1) => filter_signal_loop s1 (y :: acc) rest

/-- `MovingAverageFilter.filter_signal`: allocates the output array and runs
the loop `for i, sample in enumerate(input_signal): output[i] = self.filter_sample(sample)`,
starting from whatever state the object is in (no reset). -/
def filter_signal (s : State) (input_signal : List ℚ) :
    Except PyErr (List ℚ × State) :=
  filter_signal_loop s [] input_signal

/-- Modelled from the spec: "calling `filterSample` once per element of `xs`,
in order, collecting results in the same order", threading the state. -/
def iterFilterSample (s : State) : List ℚ → Except PyErr (List ℚ × State)
  | [] => .ok ([], s)
  | x :: rest =>
    match filter_sample s x with
    | .error e => .error e
    | .ok (y, s1) =>
      match iterFilterSample s1 rest with
      | .error e => .error e
      | .ok (ys, s2) => .ok (y :: ys, s2)

/-- Total (error-free) iteration of the step body, used to reason about
states where `filter_sample` is known to succeed. -/
def runTotal (s : State) : List ℚ → List ℚ × State
  | [] => ([], s)
  | x :: rest =>
    let p := sampleStep s x
    let q := runTotal p.2 rest
    (p.1 :: q.1, q.2)

/-- `MovingAverageFilter.get_impulse_response`:
`np.ones(self.window_size) / self.window_size`. -/
def get_impulse_response (s : State) : List ℚ :=
  List.replicate s.window_size (1 / (s.window_size : ℚ))

/-- Well-formedness of a filter object's state: the buffer has exactly
`window_size` slots and the write index is in range.  Every state produced by
`__init__` satisfies it, and `filter_sample` preserves it. -/
def State.WF (s : State) : Prop :=
  s.buffer.length = s.window_size ∧ s.index < s.window_size

instance (s : State) : Decidable s.WF :=
  inferInstanceAs (Decidable (_ ∧ _))

/-- The polynomial evaluation performed by `scipy.signal.freqz` for an FIR
filter with coefficients `h` at angular frequency `w`:
`H(w) = Σ_{n < len h} h[n] · e^(-j·w·n)`. -/
noncomputable def dtft (h : List ℚ) (w : ℝ) : ℂ :=
  ∑ n ∈ Finset.range h.length,
    (h.getD n 0 : ℂ) * Complex.exp (-(Complex.I * w * n))

/-- `MovingAverageFilter.get_frequency_response`: takes the impulse response
`h`, runs `scipy.signal.freqz(h, worN=num_points)` (which rejects a negative
`worN` with `ValueError`, and otherwise evaluates the transfer function on the
half-open grid `w_k = k·π/num_points`, `k < num_points` — `np.linspace(0, π,
num_points, endpoint=False)`), then returns `(w / (2π), |H|, angle(H))`.
`np.angle` is `atan2(Im, Re)`, modelled by `Complex.arg`. -/
noncomputable def get_frequency_response (s : State) (num_points : Int) :
    Except PyErr (List ℝ × List ℝ × List ℝ) :=
  if num_points < 0 then
    .error .valueError
  else
    let h := get_impulse_response s
    let ws := (List.range num_points.toNat).map
      (fun k : ℕ => (k : ℝ) * Real.pi / (num_points.toNat : ℝ))
    let Hs := ws.map (dtft h)
    .ok (ws.map (fun w => w / (2 * Real.pi)),
         Hs.map Complex.abs,
         Hs.map Complex.arg)

/-- The result of calling the method `get_impulse_response` on an object in
state `s`: the returned array, paired with the state the object is left in
(the method body is a single `return` with no assignment to `self`). -/
def call_get_impulse_response (s : State) : List ℚ × State :=
  (get_impulse_response s, s)

/-- The result of calling the method `get_frequency_response` on an object in
state `s`: the returned triple (or the raised error), paired with the state
the object is left in (the method body never assigns to `self`). -/
noncomputable def call_get_frequency_response (s : State) (num_points : Int) :
    Except PyErr (List ℝ × List ℝ × List ℝ) × State :=
  (get_frequency_response s num_points, s)

/-- The transfer-function value prescribed by the spec at angular frequency
`w` for window length `N`: `H(w) = Σ_{n=0}^{N-1} (1/N) · e^(-j·w·n)`. -/
noncomputable def Hspec (N : Nat) (w : ℝ) : ℂ :=
  ∑ n ∈ Finset.range N, (1 / (N : ℂ)) * Complex.exp (-(Complex.I * w * n))

/-! ## Helper lemmas -/

theorem fresh_WF (n : Nat) (hn : 1 ≤ n) : (fresh n).WF := by
  constructor
  · simp [fresh]
  · simpa [fresh] using hn

theorem init_ok (n : Int) (hn : 0 ≤ n) : init n = .ok (fresh n.toNat) := by
  simp [init, fresh, not_lt.mpr hn]

/-- Under well-formedness and a positive window, `filter_sample` succeeds and
runs the step body. -/
theorem filter_sample_ok (s : State) (x : ℚ) (hwf : s.WF)
    (hws : 1 ≤ s.window_size) :
    filter_sample s x = .ok (sampleStep s x) := by
  obtain ⟨hlen, hidx⟩ := hwf
  have h1 : s.index < s.buffer.length := by omega
  have h2 : ¬ s.window_size = 0 := by omega
  simp [filter_sample, h1, h2]

/-- The step body preserves well-formedness and the window size. -/
theorem sampleStep_WF (s : State) (x : ℚ) (hwf : s.WF)
    (hws : 1 ≤ s.window_size) :
    (sampleStep s x).2.WF ∧ (sampleStep s x).2.window_size = s.window_size := by
  obtain ⟨hlen, hidx⟩ := hwf
  refine ⟨⟨?_, ?_⟩, rfl⟩
  · simpa [sampleStep] using hlen
  · simp only [sampleStep]
    exact Nat.mod_lt _ (by omega)

theorem sum_of_set (l : List ℚ) (i : Nat) (a : ℚ) (h : i < l.length) :
    (l.set i a).sum = l.sum - l.getD i 0 + a := by
  rw [List.sum_set', dif_pos h, List.getD_eq_getElem l 0 h]
  ring

theorem getD_set_ne (l : List ℚ) (i j : Nat) (a : ℚ) (h : i ≠ j) :
    (l.set i a).getD j 0 = l.getD j 0 := by
  simp [List.getD_eq_getElem?_getD, List.getElem?_set_ne h]

theorem getD_set_self (l : List ℚ) (i : Nat) (a : ℚ) (h : i < l.length) :
    (l.set i a).getD i 0 = a := by
  simp [List.getD_eq_getElem?_getD, List.getElem?_set_self, h]

/-- The step body maintains the running-sum invariant `sum = buffer.sum`. -/
theorem sampleStep_sumInv (s : State) (x : ℚ) (hwf : s.WF)
    (hinv : s.sum = s.buffer.sum) :
    (sampleStep s x).2.sum = (sampleStep s x).2.buffer.sum := by
  obtain ⟨hlen, hidx⟩ := hwf
  have h : s.index < s.buffer.length := by omega
  simp only [sampleStep]
  rw [sum_of_set _ _ _ h, hinv]

/-- On a well-formed state with a positive window, iterated `filter_sample`
never raises, computes `runTotal`, and ends in a well-formed state with the
same window size. -/
theorem iterFilterSample_eq_runTotal (xs : List ℚ) (s : State) (hwf : s.WF)
    (hws : 1 ≤ s.window_size) :
    iterFilterSample s xs = .ok (runTotal s xs) ∧
      (runTotal s xs).2.WF ∧ (runTotal s xs).2.window_size = s.window_size := by
  induction xs generalizing s with
  | nil => exact ⟨rfl, hwf, rfl⟩
  | cons x rest ih =>
    obtain ⟨hwf1, hsz1⟩ := sampleStep_WF s x hwf hws
    obtain ⟨h1, h2, h3⟩ := ih (sampleStep s x).2 hwf1 (hsz1 ▸ hws)
    refine ⟨?_, h2, h3.trans hsz1⟩
    simp only [iterFilterSample, filter_sample_ok s x hwf hws, h1, runTotal]

/-- `runTotal` splits across list append. -/
theorem runTotal_append (xs ys : List ℚ) (s : State) :
    runTotal s (xs ++ ys) =
      ((runTotal s xs).1 ++ (runTotal (runTotal s xs).2 ys).1,
       (runTotal (runTotal s xs).2 ys).2) := by
  induction xs generalizing s with
  | nil => simp [runTotal]
  | cons x rest ih => simp [runTotal, ih]

/-- The `filter_signal` loop is the accumulator form of `iterFilterSample`. -/
theorem filter_signal_loop_spec (xs : List ℚ) (s : State) (acc : List ℚ) :
    filter_signal_loop s acc xs =
      match iterFilterSample s xs with
      | .error e => .error e
      | .ok (ys, s2) => .ok (acc.reverse ++ ys, s2) := by
  induction xs generalizing s acc with
  | nil => simp [filter_signal_loop, iterFilterSample]
  | cons x rest ih =>
    simp only [filter_signal_loop, iterFilterSample]
    cases h : filter_sample s x with
    | error e => rfl
    | ok p =>
      obtain ⟨y, s1⟩ := p
      dsimp only
      rw [ih]
      cases iterFilterSample s1 rest with
      | error e => rfl
      | ok q => simp

/-- `filter_signal` agrees exactly with element-wise `filter_sample`. -/
theorem filter_signal_eq_iter (s : State) (xs : List ℚ) :
    filter_signal s xs = iterFilterSample s xs := by
  rw [filter_signal, filter_signal_loop_spec]
  cases iterFilterSample s xs with
  | error e => rfl
  | ok p => simp

theorem getD_replicate_zero (k i : Nat) : (List.replicate k (0 : ℚ)).getD i 0 = 0 := by
  rcases lt_or_le i k with h | h
  · rw [List.getD_eq_getElem _ _ (by simpa using h)]
    simp
  · rw [List.getD_eq_default _ _ (by simpa using h)]

/-- Value at the write position after `m` constant samples: `0` while the ring
is still filling, the constant once it has wrapped. -/
theorem constBuffer_getD (N m : Nat) (hN : 1 ≤ N) (c : ℚ) :
    (List.replicate (min m N) c ++ List.replicate (N - m) 0).getD (m % N) 0 =
      if m < N then 0 else c := by
  by_cases h : m < N
  · rw [if_pos h, Nat.mod_eq_of_lt h,
      List.getD_append_right _ _ _ _ (by simp [Nat.min_eq_left h.le])]
    exact getD_replicate_zero _ _
  · rw [if_neg h, Nat.min_eq_right (by omega), Nat.sub_eq_zero_of_le (by omega)]
    rw [List.replicate_zero, List.append_nil,
      List.getD_eq_getElem _ _ (by simpa using Nat.mod_lt m (by omega))]
    simp

/-- Writing the constant at the write position advances the fill of the ring. -/
theorem constBuffer_set (N m : Nat) (c : ℚ) :
    (List.replicate (min m N) c ++ List.replicate (N - m) 0).set (m % N) c =
      List.replicate (min (m + 1) N) c ++ List.replicate (N - (m + 1)) 0 := by
  by_cases h : m < N
  · rw [Nat.mod_eq_of_lt h, Nat.min_eq_left h.le, Nat.min_eq_left (by omega),
      List.set_append_right _ _ (by simp)]
    simp only [List.length_replicate, Nat.sub_self]
    have hsplit : N - m = (N - (m + 1)) + 1 := by omega
    rw [hsplit, List.replicate_succ, List.set_cons_zero, List.replicate_succ' m c]
    simp
  · rw [Nat.min_eq_right (by omega), Nat.min_eq_right (by omega),
      Nat.sub_eq_zero_of_le (by omega), Nat.sub_eq_zero_of_le (by omega)]
    simp [List.set_replicate_self]

/-- Full characterization of a constant-input run from a fresh filter:
the `j`-th output is `min (j+1) N · c / N`, the buffer holds `min m N`
copies of `c`, the index is `m % N` and the sum is `min m N · c`. -/
theorem run_const (N : Nat) (hN : 1 ≤ N) (c : ℚ) (m : Nat) :
    runTotal (fresh N) (List.replicate m c) =
      ((List.range m).map (fun j => ((min (j + 1) N : ℕ) : ℚ) * c / (N : ℚ)),
       { window_size := N,
         buffer := List.replicate (min m N) c ++ List.replicate (N - m) 0,
         index := m % N,
         sum := ((min m N : ℕ) : ℚ) * c }) := by
  induction m with
  | zero =>
    simp [runTotal, fresh, Nat.mod_eq_of_lt hN]
  | succ m ih =>
    rw [List.replicate_succ' m c, runTotal_append, ih, List.range_succ]
    simp only [runTotal, sampleStep, constBuffer_getD N m hN c, constBuffer_set N m c,
      Nat.mod_add_mod, List.map_append, List.map_cons, List.map_nil]
    by_cases h : m < N
    · rw [if_pos h, Nat.min_eq_left (by omega : m + 1 ≤ N), Nat.min_eq_left h.le]
      have harith : (m : ℚ) * c - 0 + c = ((m + 1 : ℕ) : ℚ) * c := by push_cast; ring
      rw [harith]
    · rw [if_neg h, Nat.min_eq_right (by omega : N ≤ m + 1),
        Nat.min_eq_right (by omega : N ≤ m)]
      have harith : (N : ℚ) * c - c + c = (N : ℚ) * c := by ring
      rw [harith]

/-- Full characterization of a unit-impulse run (`[1, 0, …, 0]`, length `m`)
from a fresh filter: the `j`-th output is `1/N` for `j < N` and `0` after. -/
theorem run_impulse (N : Nat) (hN : 1 ≤ N) (m : Nat) (hm : 1 ≤ m) :
    runTotal (fresh N) (1 :: List.replicate (m - 1) 0) =
      ((List.range m).map (fun j => if j < N then (1 : ℚ) / N else 0),
       if m ≤ N then
         { window_size := N, buffer := (1 : ℚ) :: List.replicate (N - 1) 0,
           index := m % N, sum := 1 }
       else
         { window_size := N, buffer := List.replicate N (0 : ℚ),
           index := m % N, sum := 0 }) := by
  induction m, hm using Nat.le_induction with
  | base =>
    have hrep : List.replicate N (0 : ℚ) = 0 :: List.replicate (N - 1) 0 := by
      conv_lhs => rw [show N = (N - 1) + 1 by omega]
      exact List.replicate_succ 0 (N - 1)
    rw [if_pos hN]
    simp only [runTotal, sampleStep, fresh]
    rw [hrep]
    simp only [List.getD_cons_zero, List.set_cons_zero,
      show List.range 1 = [0] from rfl, List.map_cons, List.map_nil,
      if_pos (show 0 < N by omega)]
    norm_num
  | succ m hm ih =>
    have hsplit : (1 : ℚ) :: List.replicate (m + 1 - 1) 0 =
        (1 :: List.replicate (m - 1) 0) ++ [0] := by
      rw [show m + 1 - 1 = (m - 1) + 1 by omega, List.replicate_succ' (m - 1) (0 : ℚ)]
      simp
    rw [hsplit, runTotal_append, ih, List.range_succ, List.map_append, List.map_cons,
      List.map_nil]
    by_cases h : m ≤ N
    · rw [if_pos h]
      by_cases h2 : m < N
      · -- still inside the window: the leading 1 survives
        obtain ⟨k, rfl⟩ : ∃ k, m = k + 1 := ⟨m - 1, by omega⟩
        rw [if_pos (by omega : k + 1 + 1 ≤ N), if_pos h2]
        simp only [runTotal, sampleStep, Nat.mod_eq_of_lt h2, Nat.add_sub_cancel,
          List.getD_cons_succ, List.set_cons_succ, getD_replicate_zero,
          List.set_replicate_self]
        rw [show (1 : ℚ) - 0 + 0 = 1 by ring]
      · -- m = N: the leading 1 is evicted and the sum drops to 0
        have hmN : m = N := by omega
        subst hmN
        rw [if_neg (by omega : ¬ m + 1 ≤ m), if_neg (by omega : ¬ m < m)]
        have hrep : (0 : ℚ) :: List.replicate (m - 1) 0 = List.replicate m 0 := by
          conv_rhs => rw [show m = (m - 1) + 1 by omega]
          exact (List.replicate_succ 0 (m - 1)).symm
        have hidx : (0 + 1) % m = (m + 1) % m := by
          conv_rhs => rw [← Nat.mod_add_mod, Nat.mod_self]
        simp only [runTotal, sampleStep, Nat.mod_self, List.getD_cons_zero,
          List.set_cons_zero]
        rw [hrep, hidx, show (1 : ℚ) - 1 + 0 = 0 by ring,
          show (0 : ℚ) / (m : ℚ) = 0 by ring]
    · -- past the window: buffer is all zeros and stays so
      rw [if_neg h, if_neg (by omega : ¬ m + 1 ≤ N), if_neg (by omega : ¬ m < N)]
      simp only [runTotal, sampleStep, getD_replicate_zero, List.set_replicate_self,
        Nat.mod_add_mod]
      rw [show (0 : ℚ) - 0 + 0 = 0 by ring, show (0 : ℚ) / (N : ℚ) = 0 by ring]

/-- `runTotal` maintains the running-sum invariant along a whole run. -/
theorem runTotal_sumInv (xs : List ℚ) (s : State) (hwf : s.WF)
    (hws : 1 ≤ s.window_size) (hinv : s.sum = s.buffer.sum) :
    (runTotal s xs).2.sum = (runTotal s xs).2.buffer.sum := by
  induction xs generalizing s with
  | nil => exact hinv
  | cons x rest ih =>
    obtain ⟨hwf1, hsz1⟩ := sampleStep_WF s x hwf hws
    simpa only [runTotal] using
      ih (sampleStep s x).2 hwf1 (hsz1 ▸ hws) (sampleStep_sumInv s x hwf hinv)

/-- Inverting a successful `__init__` with a nonnegative argument. -/
theorem init_inv (n : Int) (s0 : State) (hn : 0 ≤ n) (h : init n = .ok s0) :
    s0 = fresh n.toNat := by
  rw [init_ok n hn] at h
  exact (Except.ok.inj h).symm

/-- `iterFilterSample` preserves the length of the signal. -/
theorem iterFilterSample_length (xs : List ℚ) (s : State) (ys : List ℚ)
    (s2 : State) (h : iterFilterSample s xs = .ok (ys, s2)) :
    ys.length = xs.length := by
  induction xs generalizing s ys s2 with
  | nil =>
    simp only [iterFilterSample] at h
    obtain ⟨h1, -⟩ := Prod.mk.injEq .. ▸ Except.ok.inj h
    simp [← h1]
  | cons x rest ih =>
    simp only [iterFilterSample] at h
    cases h1 : filter_sample s x with
    | error e => rw [h1] at h; exact absurd h (by simp)
    | ok p =>
      rw [h1] at h
      obtain ⟨y, s1⟩ := p
      dsimp only at h
      cases h2 : iterFilterSample s1 rest with
      | error e => rw [h2] at h; exact absurd h (by simp)
      | ok q =>
        obtain ⟨zs, s3⟩ := q
        rw [h2] at h
        dsimp only at h
        obtain ⟨hy, -⟩ := Prod.mk.injEq .. ▸ Except.ok.inj h
        rw [← hy]
        simpa using ih s1 zs s3 h2

theorem getD_map_range {α : Type} (d : α) (P k : Nat) (f : Nat → α) (hk : k < P) :
    ((List.range P).map f).getD k d = f k := by
  rw [List.getD_eq_getElem _ _ (by simpa using hk)]
  simp

/-- C1.  On any well-formed state with `windowSize ≥ 1`, one `filter_sample`
call subtracts `buffer[i]` (`i` the current write index) from the running
sum, overwrites `buffer[i]` with the input, adds the input, advances the
index to `(i + 1) % windowSize`, and returns the new sum divided by
`windowSize`; buffer slots other than slot `i` are unchanged. -/
theorem C1_filter_sample_contract (s : State) (x : ℚ)
    (hws : 1 ≤ s.window_size) (hwf : s.WF) :
    filter_sample s x = .ok
      ((s.sum - s.buffer.getD s.index 0 + x) / (s.window_size : ℚ),
       { window_size := s.window_size,
         buffer := s.buffer.set s.index x,
         index := (s.index + 1) % s.window_size,
         sum := s.sum - s.buffer.getD s.index 0 + x }) ∧
    (s.buffer.set s.index x).getD s.index 0 = x ∧
    (∀ j, j ≠ s.index → (s.buffer.set s.index x).getD j 0 = s.buffer.getD j 0) := by
  refine ⟨?_, ?_, ?_⟩
  · rw [filter_sample_ok s x hwf hws]
    rfl
  · exact getD_set_self _ _ _ (by obtain ⟨hl, hi⟩ := hwf; omega)
  · intro j hj
    exact getD_set_ne _ _ _ _ (fun h => hj h.symm)

/-- Concrete check of `C1_filter_sample_contract` on the state
`⟨windowSize 2, buffer [5, 7], index 0, sum 12⟩` and input `3`. -/
theorem C1_filter_sample_contract_witness :
    filter_sample { window_size := 2, buffer := [5, 7], index := 0, sum := 12 } 3 =
      .ok ((12 - List.getD [5, 7] 0 0 + 3) / (2 : ℚ),
           { window_size := 2, buffer := List.set [5, 7] 0 3,
             index := (0 + 1) % 2, sum := 12 - List.getD [5, 7] 0 0 + 3 }) :=
  (C1_filter_sample_contract
    { window_size := 2, buffer := [5, 7], index := 0, sum := 12 } 3
    (by decide) (by decide)).1

/-- C2.  Starting from a freshly constructed averager with `windowSize ≥ 1`,
after any finite sequence of `filter_sample` calls (each returning
successfully), the running sum equals the sum of the buffer contents — over
exact rationals, so "to within floating-point tolerance" holds with
tolerance zero in the ideal-real model. -/
theorem C2_running_sum_invariant (ws : Int) (s0 : State) (xs ys : List ℚ)
    (s : State) (hws : 1 ≤ ws) (h0 : init ws = .ok s0)
    (hrun : iterFilterSample s0 xs = .ok (ys, s)) :
    s.sum = s.buffer.sum := by
  have hs0 := init_inv ws s0 (by omega) h0
  subst hs0
  have hn : 1 ≤ ws.toNat := by omega
  have hwf := fresh_WF ws.toNat hn
  obtain ⟨hok, hwf2, -⟩ :=
    iterFilterSample_eq_runTotal xs (fresh ws.toNat) hwf hn
  rw [hok] at hrun
  obtain ⟨-, hst⟩ := Prod.mk.injEq .. ▸ Except.ok.inj hrun
  rw [← hst]
  exact runTotal_sumInv xs (fresh ws.toNat) hwf hn (by simp [fresh])

/-- Concrete check of `C2_running_sum_invariant`: window 2, inputs `[3, 5]`. -/
theorem C2_running_sum_invariant_witness :
    ∃ ys s, iterFilterSample (fresh 2) [3, 5] = .ok (ys, s) ∧
      s.sum = s.buffer.sum := by
  have hrun : iterFilterSample (fresh 2) [3, 5] =
      .ok ([3 / 2, 4], { window_size := 2, buffer := [3, 5], index := 0, sum := 8 }) := by
    norm_num [iterFilterSample, filter_sample, sampleStep, fresh, List.replicate]
  refine ⟨[3 / 2, 4], { window_size := 2, buffer := [3, 5], index := 0, sum := 8 },
    hrun, ?_⟩
  exact C2_running_sum_invariant 2 (fresh 2) [3, 5] [3 / 2, 4]
    { window_size := 2, buffer := [3, 5], index := 0, sum := 8 }
    (by decide) (by norm_num [init, fresh]; rfl) hrun

/-- C3.  `filter_signal` returns exactly the outputs of calling
`filter_sample` once per element in order from the same starting state — no
reset before or during the run — ends in the same final state, and the
output has the same length as the input. -/
theorem C3_filter_signal_equiv (s : State) (xs : List ℚ) :
    filter_signal s xs = iterFilterSample s xs ∧
    ∀ ys s2, iterFilterSample s xs = .ok (ys, s2) → ys.length = xs.length := by
  exact ⟨filter_signal_eq_iter s xs,
    fun ys s2 h => iterFilterSample_length xs s ys s2 h⟩

/-- Concrete check of `C3_filter_signal_equiv`: a mid-stream state (window 2,
nonzero buffer and index) and signal `[1, 2, 3]`. -/
theorem C3_filter_signal_equiv_witness :
    filter_signal { window_size := 2, buffer := [4, 6], index := 1, sum := 10 } [1, 2, 3] =
      iterFilterSample { window_size := 2, buffer := [4, 6], index := 1, sum := 10 } [1, 2, 3] ∧
    ([(5 : ℚ) / 2, 3 / 2, 5 / 2] : List ℚ).length = ([1, 2, 3] : List ℚ).length := by
  refine ⟨(C3_filter_signal_equiv
    { window_size := 2, buffer := [4, 6], index := 1, sum := 10 } [1, 2, 3]).1, ?_⟩
  exact (C3_filter_signal_equiv
    { window_size := 2, buffer := [4, 6], index := 1, sum := 10 } [1, 2, 3]).2
    [(5 : ℚ) / 2, 3 / 2, 5 / 2]
    { window_size := 2, buffer := [2, 3], index := 0, sum := 5 }
    (by norm_num [iterFilterSample, filter_sample, sampleStep])

/-- The output profile of a warm-up-then-steady run, as a list. -/
theorem map_range_const_prefix (N t : Nat) (a b : ℚ) :
    (List.range (N + t)).map (fun j => if j < N then a else b) =
      List.replicate N a ++ List.replicate t b := by
  rw [List.range_add, List.map_append, List.map_map]
  congr 1
  · rw [List.eq_replicate_iff]
    refine ⟨by simp, ?_⟩
    intro v hv
    obtain ⟨j, hj, rfl⟩ := List.mem_map.mp hv
    rw [if_pos (List.mem_range.mp hj)]
  · rw [List.eq_replicate_iff]
    refine ⟨by simp, ?_⟩
    intro v hv
    obtain ⟨j, hj, rfl⟩ := List.mem_map.mp hv
    simp only [Function.comp_apply]
    rw [if_neg (by omega)]

/-- C5.  From a freshly constructed averager with `windowSize = N ≥ 1`,
feeding the unit impulse `[1, 0, …, 0]` of length `L ≥ N` sample by sample
produces exactly the values of `get_impulse_response` followed by zeros
(`1/N` for the first `N` outputs, then `0`), and `get_impulse_response`
itself returns `N` copies of `1/N`. -/
theorem C5_impulse_identity (N L : Nat) (s0 : State)
    (hN : 1 ≤ N) (hL : N ≤ L) (h0 : init (N : Int) = .ok s0) :
    get_impulse_response s0 = List.replicate N (1 / (N : ℚ)) ∧
    ∃ s, iterFilterSample s0 (1 :: List.replicate (L - 1) 0) =
      .ok (get_impulse_response s0 ++ List.replicate (L - N) 0, s) := by
  have hs0 := init_inv _ s0 (Int.natCast_nonneg N) h0
  rw [show ((N : Int)).toNat = N from rfl] at hs0
  subst hs0
  have hgir : get_impulse_response (fresh N) = List.replicate N (1 / (N : ℚ)) := rfl
  refine ⟨hgir, ?_⟩
  obtain ⟨hok, -, -⟩ := iterFilterSample_eq_runTotal (1 :: List.replicate (L - 1) 0)
    (fresh N) (fresh_WF N hN) (by simpa [fresh] using hN)
  have houts := map_range_const_prefix N (L - N) (1 / (N : ℚ)) 0
  rw [show N + (L - N) = L by omega] at houts
  refine ⟨(runTotal (fresh N) (1 :: List.replicate (L - 1) 0)).2, ?_⟩
  rw [hok, run_impulse N hN L (by omega), hgir, ← houts]

/-- Concrete check of `C5_impulse_identity`: window 2, impulse of length 2. -/
theorem C5_impulse_identity_witness :
    get_impulse_response (fresh 2) = List.replicate 2 (1 / (2 : ℚ)) ∧
    ∃ s, iterFilterSample (fresh 2) (1 :: List.replicate (2 - 1) 0) =
      .ok (get_impulse_response (fresh 2) ++ List.replicate (2 - 2) 0, s) :=
  C5_impulse_identity 2 2 (fresh 2) (by decide) (by decide)
    (by simp [init, fresh])

/-- C6.  From a freshly constructed averager with `windowSize = N ≥ 1`, on the
all-ones input the `k`-th output (0-indexed, `k < N`) is `(k+1)/N`: the
warm-up outputs are true averages over the zero-filled buffer. -/
theorem C6_warmup_transient (N m k : Nat) (s0 : State) (ys : List ℚ)
    (s : State) (hN : 1 ≤ N) (h0 : init (N : Int) = .ok s0) (hkN : k < N)
    (hkm : k < m)
    (hrun : iterFilterSample s0 (List.replicate m 1) = .ok (ys, s)) :
    ys.getD k 0 = ((k : ℚ) + 1) / (N : ℚ) := by
  have hs0 := init_inv _ s0 (Int.natCast_nonneg N) h0
  rw [show ((N : Int)).toNat = N from rfl] at hs0
  subst hs0
  obtain ⟨hok, -, -⟩ := iterFilterSample_eq_runTotal (List.replicate m 1)
    (fresh N) (fresh_WF N hN) (by simpa [fresh] using hN)
  rw [hok, run_const N hN 1 m] at hrun
  obtain ⟨hys, -⟩ := Prod.mk.injEq .. ▸ Except.ok.inj hrun
  rw [← hys, getD_map_range 0 m k _ hkm, Nat.min_eq_left (by omega : k + 1 ≤ N)]
  push_cast
  ring

/-- Concrete check of `C6_warmup_transient`: window 2, one `1.0` sample. -/
theorem C6_warmup_transient_witness :
    ([(1 : ℚ) / 2] : List ℚ).getD 0 0 = ((0 : ℚ) + 1) / (2 : ℚ) :=
  C6_warmup_transient 2 1 0 (fresh 2) [(1 : ℚ) / 2]
    { window_size := 2, buffer := [1, 0], index := 1, sum := 1 }
    (by decide) (by simp [init, fresh]) (by decide) (by decide)
    (by norm_num [iterFilterSample, filter_sample, sampleStep, fresh, List.replicate])

/-- C7.  From a freshly constructed averager with `windowSize = N ≥ 1`, feeding
the constant `c` repeatedly yields output exactly `c` on the `N`-th call and
on every later call (0-indexed output `k` with `N ≤ k + 1`). -/
theorem C7_constant_convergence (N m k : Nat) (c : ℚ) (s0 : State)
    (ys : List ℚ) (s : State) (hN : 1 ≤ N) (h0 : init (N : Int) = .ok s0)
    (hNk : N ≤ k + 1) (hkm : k < m)
    (hrun : iterFilterSample s0 (List.replicate m c) = .ok (ys, s)) :
    ys.getD k 0 = c := by
  have hs0 := init_inv _ s0 (Int.natCast_nonneg N) h0
  rw [show ((N : Int)).toNat = N from rfl] at hs0
  subst hs0
  obtain ⟨hok, -, -⟩ := iterFilterSample_eq_runTotal (List.replicate m c)
    (fresh N) (fresh_WF N hN) (by simpa [fresh] using hN)
  rw [hok, run_const N hN c m] at hrun
  obtain ⟨hys, -⟩ := Prod.mk.injEq .. ▸ Except.ok.inj hrun
  rw [← hys, getD_map_range 0 m k _ hkm, Nat.min_eq_right (by omega : N ≤ k + 1)]
  rw [mul_comm, mul_div_assoc, div_self (Nat.cast_ne_zero.mpr (by omega)), mul_one]

/-- Concrete check of `C7_constant_convergence`: window 1, constant 5, second
output. -/
theorem C7_constant_convergence_witness :
    ([(5 : ℚ), 5] : List ℚ).getD 1 0 = 5 :=
  C7_constant_convergence 1 2 1 5 (fresh 1) [(5 : ℚ), 5]
    { window_size := 1, buffer := [5], index := 0, sum := 5 }
    (by decide) (by simp [init, fresh]) (by decide) (by decide)
    (by norm_num [iterFilterSample, filter_sample, sampleStep, fresh, List.replicate])

/-- C10.  Constructing with `windowSize = 0` succeeds, returning an object
with an empty buffer, index 0 and sum 0, and raises nothing; every
`filter_sample` call on that object fails (the unguarded
`self.buffer[self.index]` read on the empty buffer raises `IndexError`
before the equally unguarded `% 0` and `/ 0` are reached, and the state is
not changed, so every subsequent call fails the same way). -/
theorem C10_zero_window_unguarded (x : ℚ) :
    init 0 = .ok { window_size := 0, buffer := [], index := 0, sum := 0 } ∧
    filter_sample { window_size := 0, buffer := [], index := 0, sum := 0 } x =
      .error .indexError := by
  exact ⟨rfl, rfl⟩

/-- Concrete check of `C10_zero_window_unguarded` at input `1`. -/
theorem C10_zero_window_unguarded_witness :
    init 0 = .ok { window_size := 0, buffer := [], index := 0, sum := 0 } ∧
    filter_sample { window_size := 0, buffer := [], index := 0, sum := 0 } 1 =
      .error .indexError :=
  C10_zero_window_unguarded 1

/-- `freqz`'s polynomial evaluation on the box-car impulse response is the
spec's transfer function. -/
theorem dtft_impulse_response (s : State) (w : ℝ) :
    dtft (get_impulse_response s) w = Hspec s.window_size w := by
  unfold dtft Hspec get_impulse_response
  rw [List.length_replicate]
  refine Finset.sum_congr rfl ?_
  intro n hn
  congr 1
  rw [List.getD_eq_getElem _ _ (by simpa using Finset.mem_range.mp hn)]
  rw [List.getElem_replicate]
  push_cast
  ring

/-- At DC the transfer function is exactly `1` for every window `N ≥ 1`. -/
theorem Hspec_zero (N : Nat) (hN : 1 ≤ N) : Hspec N 0 = 1 := by
  unfold Hspec
  have hterm : ∀ n ∈ Finset.range N,
      (1 / (N : ℂ)) * Complex.exp (-(Complex.I * (0 : ℝ) * n)) = 1 / (N : ℂ) := by
    intro n _
    norm_num
  rw [Finset.sum_congr rfl hterm, Finset.sum_const, Finset.card_range,
    nsmul_eq_mul, mul_one_div, div_self (Nat.cast_ne_zero.mpr (by omega))]

/-- C9.  `get_impulse_response` and `get_frequency_response` leave the
object's state (buffer, write index, running sum) unchanged — their bodies
never assign to `self` — and their results depend only on `window_size`
(and `num_points`): two objects with equal window sizes give equal results
whatever samples either has processed. -/
theorem C9_pure_queries (s t : State) (n : Int)
    (h : s.window_size = t.window_size) :
    (call_get_impulse_response s).2 = s ∧
    (call_get_frequency_response s n).2 = s ∧
    (call_get_impulse_response s).1 = (call_get_impulse_response t).1 ∧
    (call_get_frequency_response s n).1 = (call_get_frequency_response t n).1 := by
  refine ⟨rfl, rfl, ?_, ?_⟩
  · simp [call_get_impulse_response, get_impulse_response, h]
  · simp [call_get_frequency_response, get_frequency_response,
      get_impulse_response, h]

/-- Concrete check of `C9_pure_queries`: same window, different streaming
state. -/
theorem C9_pure_queries_witness :
    (call_get_impulse_response { window_size := 2, buffer := [1, 2], index := 0, sum := 3 }).2 =
      { window_size := 2, buffer := [1, 2], index := 0, sum := 3 } ∧
    (call_get_frequency_response { window_size := 2, buffer := [1, 2], index := 0, sum := 3 } 5).2 =
      { window_size := 2, buffer := [1, 2], index := 0, sum := 3 } ∧
    (call_get_impulse_response { window_size := 2, buffer := [1, 2], index := 0, sum := 3 }).1 =
      (call_get_impulse_response { window_size := 2, buffer := [9, 9], index := 1, sum := 18 }).1 ∧
    (call_get_frequency_response { window_size := 2, buffer := [1, 2], index := 0, sum := 3 } 5).1 =
      (call_get_frequency_response { window_size := 2, buffer := [9, 9], index := 1, sum := 18 } 5).1 :=
  C9_pure_queries { window_size := 2, buffer := [1, 2], index := 0, sum := 3 }
    { window_size := 2, buffer := [9, 9], index := 1, sum := 18 } 5 rfl

/-- C4 counterexample: constructing with `windowSize = 0` raises nothing and
returns an object (empty buffer, index 0, sum 0), refuting "construction
raises InvalidArgument for every windowSize ≤ 0". -/
theorem C4_counterexample :
    init 0 = .ok { window_size := 0, buffer := [], index := 0, sum := 0 } ∧
    ∀ e : PyErr, init 0 ≠ .error e := by
  refine ⟨rfl, fun e h => ?_⟩
  rw [show init 0 = .ok { window_size := 0, buffer := [], index := 0, sum := 0 }
    from rfl] at h
  exact Except.noConfusion h

/-- C4 amended: the code has no `InvalidArgument` error and performs no
argument validation of its own.  Construction fails only for negative
`windowSize` (numpy's `ValueError` from `np.zeros`) and succeeds for
`windowSize = 0` with an empty buffer; `get_frequency_response` fails only
for negative `numPoints` (`ValueError` from `freqz`) and returns three empty
sequences for `numPoints = 0`; `filter_sample` never fails on a well-formed
state with `windowSize ≥ 1` (the states validly constructed objects reach). -/
theorem C4_no_validation (ws np0 : Int) (s t : State) (x : ℚ)
    (hneg : ws < 0) (hnp : np0 < 0) (hwf : s.WF) (hpos : 1 ≤ s.window_size) :
    init ws = .error .valueError ∧
    init 0 = .ok { window_size := 0, buffer := [], index := 0, sum := 0 } ∧
    get_frequency_response t np0 = .error .valueError ∧
    get_frequency_response t 0 = .ok ([], [], []) ∧
    ∃ y s2, filter_sample s x = .ok (y, s2) := by
  refine ⟨by simp [init, hneg], rfl, by simp [get_frequency_response, hnp], ?_, ?_⟩
  · simp [get_frequency_response]
  · exact ⟨_, _, filter_sample_ok s x hwf hpos⟩

/-- Concrete check of `C4_no_validation` at `windowSize = -1`,
`numPoints = -2`, a well-formed window-1 state. -/
theorem C4_no_validation_witness :
    init (-1) = .error .valueError ∧
    init 0 = .ok { window_size := 0, buffer := [], index := 0, sum := 0 } ∧
    get_frequency_response (fresh 3) (-2) = .error .valueError ∧
    get_frequency_response (fresh 3) 0 = .ok ([], [], []) ∧
    ∃ y s2, filter_sample (fresh 1) 7 = .ok (y, s2) :=
  C4_no_validation (-1) (-2) (fresh 1) (fresh 3) 7
    (by decide) (by decide) (by decide) (by decide)

/-- C8 amended.  For `windowSize ≥ 1` and `numPoints = P ≥ 1`,
`get_frequency_response` returns three sequences of length `P`; the
frequencies are the `P` equally spaced points `k/(2P)` (`k < P`) — they
start at `0` with spacing `1/(2P)` and cover `[0, 0.5)`: the Nyquist
endpoint `0.5` itself is excluded (`np.linspace(0, π, P, endpoint=False)`),
which is the one deviation from the claim's closed interval `[0, 0.5]`; at
each grid point `ω_k = kπ/P` the magnitude is `|H(ω_k)|` and the phase
`atan2(Im H(ω_k), Re H(ω_k))` for `H(ω) = Σ_{n<N} (1/N)e^(-jωn)`; at
frequency `0` the magnitude is exactly `1` and the phase `0`. -/
theorem C8_frequency_response (s : State) (P : Nat)
    (hws : 1 ≤ s.window_size) (hP : 1 ≤ P) :
    ∃ freqs mags phases,
      get_frequency_response s (P : Int) = .ok (freqs, mags, phases) ∧
      freqs.length = P ∧ mags.length = P ∧ phases.length = P ∧
      freqs = (List.range P).map (fun k : ℕ => (k : ℝ) / (2 * P)) ∧
      (∀ k, k < P →
        mags.getD k 0 =
          Complex.abs (Hspec s.window_size ((k : ℝ) * Real.pi / P)) ∧
        phases.getD k 0 =
          Complex.arg (Hspec s.window_size ((k : ℝ) * Real.pi / P))) ∧
      freqs.getD 0 0 = 0 ∧ mags.getD 0 0 = 1 ∧ phases.getD 0 0 = 0 := by
  have hPne : (P : ℝ) ≠ 0 := Nat.cast_ne_zero.mpr (by omega)
  have hzero : (0 : ℝ) * Real.pi / (P : ℝ) = 0 := by ring
  have hgrid : ∀ k, k < P → ∀ d : ℝ,
      ((((List.range P).map (fun j : ℕ => (j : ℝ) * Real.pi / (P : ℝ))).map
        (dtft (get_impulse_response s))).map Complex.abs).getD k d =
        Complex.abs (Hspec s.window_size ((k : ℝ) * Real.pi / (P : ℝ))) := by
    intro k hk d
    rw [List.map_map, List.map_map, getD_map_range d P k _ hk]
    simp only [Function.comp_apply]
    rw [dtft_impulse_response]
  have hgridArg : ∀ k, k < P → ∀ d : ℝ,
      ((((List.range P).map (fun j : ℕ => (j : ℝ) * Real.pi / (P : ℝ))).map
        (dtft (get_impulse_response s))).map Complex.arg).getD k d =
        Complex.arg (Hspec s.window_size ((k : ℝ) * Real.pi / (P : ℝ))) := by
    intro k hk d
    rw [List.map_map, List.map_map, getD_map_range d P k _ hk]
    simp only [Function.comp_apply]
    rw [dtft_impulse_response]
  refine ⟨(((List.range P).map (fun j : ℕ => (j : ℝ) * Real.pi / (P : ℝ)))).map
      (fun w => w / (2 * Real.pi)),
    (((List.range P).map (fun j : ℕ => (j : ℝ) * Real.pi / (P : ℝ))).map
      (dtft (get_impulse_response s))).map Complex.abs,
    (((List.range P).map (fun j : ℕ => (j : ℝ) * Real.pi / (P : ℝ))).map
      (dtft (get_impulse_response s))).map Complex.arg,
    ?_, by simp, by simp, by simp, ?_, ?_, ?_, ?_, ?_⟩
  · unfold get_frequency_response
    rw [if_neg (not_lt.mpr (Int.natCast_nonneg P))]
    rfl
  · -- the frequency grid in cycles per sample
    rw [List.map_map]
    refine List.map_congr_left ?_
    intro k hk
    simp only [Function.comp_apply]
    field_simp
    ring
  · intro k hk
    exact ⟨hgrid k hk 0, hgridArg k hk 0⟩
  · -- first frequency is 0
    rw [List.map_map, getD_map_range 0 P 0 _ (by omega)]
    simp
  · -- magnitude at DC is 1
    rw [hgrid 0 (by omega) 0]
    push_cast
    rw [hzero, Hspec_zero s.window_size hws]
    simp
  · -- phase at DC is 0
    rw [hgridArg 0 (by omega) 0]
    push_cast
    rw [hzero, Hspec_zero s.window_size hws]
    exact Complex.arg_one

/-- Concrete check of `C8_frequency_response` at window 1, one point. -/
theorem C8_frequency_response_witness :
    ∃ freqs mags phases,
      get_frequency_response (fresh 1) ((1 : Nat) : Int) = .ok (freqs, mags, phases) ∧
      freqs.length = 1 ∧ mags.length = 1 ∧ phases.length = 1 ∧
      freqs = (List.range 1).map (fun k : ℕ => (k : ℝ) / (2 * (1 : Nat))) ∧
      (∀ k, k < 1 →
        mags.getD k 0 =
          Complex.abs (Hspec (fresh 1).window_size ((k : ℝ) * Real.pi / (1 : Nat))) ∧
        phases.getD k 0 =
          Complex.arg (Hspec (fresh 1).window_size ((k : ℝ) * Real.pi / (1 : Nat)))) ∧
      freqs.getD 0 0 = 0 ∧ mags.getD 0 0 = 1 ∧ phases.getD 0 0 = 0 :=
  C8_frequency_response (fresh 1) 1 (by decide) (by decide)

/-- C8 counterexample: with `windowSize = 1` and `numPoints = 2` the returned
frequencies are `[0, 1/4]`.  Two equally spaced points spanning the closed
interval `[0, 0.5]` would be `[0, 1/2]`; the grid is half-open and the
endpoint `0.5` is never attained. -/
theorem C8_counterexample :
    get_frequency_response (fresh 1) 2 = .ok ([0, 1 / 4], [1, 1], [0, 0]) ∧
    ([(0 : ℝ), 1 / 4] ≠ [(0 : ℝ), 1 / 2]) ∧ (1 / 2 : ℝ) ∉ [(0 : ℝ), 1 / 4] := by
  refine ⟨?_, by norm_num, by norm_num⟩
  unfold get_frequency_response
  rw [if_neg (by norm_num)]
  have hrange : List.range ((2 : Int)).toNat = [0, 1] := rfl
  have hd : ∀ w : ℝ, dtft (get_impulse_response (fresh 1)) w = 1 := by
    intro w
    unfold dtft get_impulse_response fresh
    norm_num
  rw [hrange]
  simp only [List.map_cons, List.map_nil, hd]
  norm_num [Complex.arg_one]
  rw [show ((Int.toNat 2 : ℕ) : ℝ) = 2 by simp]
  rw [div_div]
  rw [show (2 : ℝ) * (2 * Real.pi) = 4 * Real.pi by ring]
  rw [div_eq_div_iff (by positivity) (by norm_num : (4 : ℝ) ≠ 0)]
  ring

end MovingAverage
